import Mathlib

/- Verification development for the document-ingestion pipeline
   (`app/ingetion.py`): text normalization (`clean_text`), the chunker with
   its character-to-page map (`chunk_pages`), extension dispatch
   (`extract_pages`) and the versioned record builder (`ingest_document`).
   Strings are `List Char`, Python `int` is `Int`, page numbers are `Nat`. -/

/-- Whitespace test for the character class collapsed by
`re.sub(r"\s+", " ", text)` and stripped by `str.strip()` (ASCII range). -/
def isWs (c : Char) : Bool :=
  c = ' ' || c = '\t' || c = '\n' || c = '\r' || c = '\x0b' || c = '\x0c'

/-- Collapsing phase of `clean_text`: each maximal whitespace run becomes one
space. The boolean records whether we are inside a run already. -/
def collapseWs : Bool → List Char → List Char
  | _, [] => []
  | inRun, c :: rest =>
    if isWs c then
      if inRun then collapseWs true rest else ' ' :: collapseWs true rest
    else c :: collapseWs false rest

/-- Strip of leading and trailing whitespace, as Python `str.strip()`. -/
def stripChars (s : List Char) : List Char :=
  ((s.dropWhile isWs).reverse.dropWhile isWs).reverse

/-- Embedding of `clean_text`: collapse whitespace runs, then strip. -/
def clean_text (s : List Char) : List Char :=
  stripChars (collapseWs false s)

/-- Extracted page: `{"page": i, "text": t}`. -/
structure Page where
  page : Nat
  text : List Char
deriving DecidableEq

/-- Emitted chunk: `{"chunk_text": t, "pages": ps}`. -/
structure Chunk where
  chunk_text : List Char
  pages : List Nat
deriving DecidableEq

/-- Embedding of Python `sorted(set(xs))` on page numbers. -/
def sortedDedup (xs : List Nat) : List Nat :=
  List.insertionSort (· ≤ ·) xs.dedup

/-- Stream-building loop of `chunk_pages`: accumulates `full_text` and the
parallel `char_to_page` map, page by page.  A page whose cleaned text is empty
is skipped; otherwise, when the stream is already non-empty, one separator
space is appended and its map entry is the incoming page's number. -/
def buildStreamAux : List Char × List Nat → List Page → List Char × List Nat
  | acc, [] => acc
  | (ft, cp), p :: ps =>
    let cleaned := clean_text p.text
    if cleaned = [] then buildStreamAux (ft, cp) ps
    else if ft = [] then
      buildStreamAux (ft ++ cleaned, cp ++ List.replicate cleaned.length p.page) ps
    else
      buildStreamAux (ft ++ ' ' :: cleaned,
        cp ++ p.page :: List.replicate cleaned.length p.page) ps

/-- Stream and map built by `chunk_pages` from `full_text = ""` and
`char_to_page = []`. -/
def buildStream (pages : List Page) : List Char × List Nat :=
  buildStreamAux ([], []) pages

/-- Python slice endpoint clamping for `l[a:b]`. -/
def pyIdx (len : Nat) (i : Int) : Nat :=
  if i < 0 then ((len : Int) + i).toNat else min i.toNat len

/-- Python slice `l[a:b]`. -/
def pySlice (l : List α) (a b : Int) : List α :=
  (l.drop (pyIdx l.length a)).take (pyIdx l.length b - pyIdx l.length a)

/-- Fuel-indexed unfolding of the `while start < len(full_text)` loop of
`chunk_pages`; `none` means the fuel ran out with the loop still running. -/
def chunkLoopFuel (ft : List Char) (cp : List Nat) (chunk_size overlap : Int) :
    Nat → Int → Option (List Chunk)
  | 0, start => if start < (ft.length : Int) then none else some []
  | fuel + 1, start =>
    if start < (ft.length : Int) then
      let e := min (start + chunk_size) (ft.length : Int)
      let c := stripChars (pySlice ft start e)
      match chunkLoopFuel ft cp chunk_size overlap fuel (start + (chunk_size - overlap)) with
      | none => none
      | some rest =>
        if c = [] then some rest
        else some ({ chunk_text := c, pages := sortedDedup (pySlice cp start e) } :: rest)
    else some []

/-- Embedding of `chunk_pages`.  `chunk_size` and `overlap` are the defaulted
parameters (their defaults come from process-wide configuration and are made
explicit here).  The loop advances `start` by `chunk_size - overlap` each
iteration; `ft.length + 1` units of fuel cover every terminating run, so a
`none` result means the while loop never terminates. -/
def chunk_pages (pages : List Page) (chunk_size overlap : Int) : Option (List Chunk) :=
  let s := buildStream pages
  chunkLoopFuel s.1 s.2 chunk_size overlap (s.1.length + 1) 0

/-- Last index of `c` in `l`, or `-1` when absent, as Python `str.rfind`. -/
def rfind : List Char → Char → Int
  | [], _ => -1
  | x :: xs, c =>
    let r := rfind xs c
    if 0 ≤ r then r + 1 else if x = c then 0 else -1

/-- Extension part of `os.path.splitext` (POSIX separator): the suffix from
the last dot, provided that dot lies after the last slash and the basename
has a non-dot character before it. -/
def splitext_ext (p : List Char) : List Char :=
  let sepIndex := rfind p '/'
  let dotIndex := rfind p '.'
  if sepIndex < dotIndex then
    if ((p.drop (sepIndex + 1).toNat).take
        (dotIndex.toNat - (sepIndex + 1).toNat)).any (fun c => c != '.') then
      p.drop dotIndex.toNat
    else []
  else []

/-- Basename of a POSIX path, as `os.path.basename`. -/
def basename (p : List Char) : List Char :=
  p.drop (rfind p '/' + 1).toNat

/-- Embedding of `extract_pages`: extension dispatch.  Reading file contents
is I/O, so the readers are parameters: `readPdf` stands for the `pypdf`
per-page extraction (already filtered of blank pages), `readTxt` for reading
a text file whose whole content becomes page 1.  `Except.error` is the raised
`ValueError`. -/
def extract_pages (readPdf : List Char → List Page) (readTxt : List Char → List Char)
    (file_path : List Char) : Except (List Char) (List Page) :=
  let ext := (splitext_ext file_path).map Char.toLower
  if ext = ".pdf".toList then Except.ok (readPdf file_path)
  else if ext = ".txt".toList ∨ ext = ".md".toList then
    Except.ok [{ page := 1, text := readTxt file_path }]
  else Except.error ("Unsupported file type: ".toList ++ ext)

/-- Decimal digit character (argument below 10). -/
def digitChar : Nat → Char
  | 0 => '0' | 1 => '1' | 2 => '2' | 3 => '3' | 4 => '4'
  | 5 => '5' | 6 => '6' | 7 => '7' | 8 => '8' | _ => '9'

/-- Fueled digit accumulator behind `natRepr`. -/
def natReprCore : Nat → Nat → List Char → List Char
  | 0, _, acc => acc
  | fuel + 1, n, acc =>
    if n < 10 then digitChar n :: acc
    else natReprCore fuel (n / 10) (digitChar (n % 10) :: acc)

/-- Decimal rendering of a natural number, as Python `str`. -/
def natRepr (n : Nat) : List Char := natReprCore (n + 1) n []

/-- Decimal rendering of an integer, as Python `str` on `int`. -/
def intRepr (i : Int) : List Char :=
  if i < 0 then '-' :: natRepr (-i).toNat else natRepr i.toNat

/-- Python `",".join(strs)`. -/
def commaJoin : List (List Char) → List Char
  | [] => []
  | [x] => x
  | x :: xs => x ++ ',' :: commaJoin xs

/-- Metadata attached to each upserted record by `ingest_document`. -/
structure Metadata where
  doc_id : List Char
  doc_version : Int
  is_active : Bool
  source : List Char
  pages : List Char
  ingested_at : List Char
deriving DecidableEq

/-- Record ready for vector-DB upsert. -/
structure IngestionRecord where
  id : List Char
  chunk_text : List Char
  metadata : Metadata
deriving DecidableEq

/-- Record-building loop of `ingest_document`
(`for idx, chunk in enumerate(chunks)`). -/
def buildRecords (doc_id : List Char) (version : Int) (is_active : Bool)
    (file_name ingestion_time : List Char) (chunks : List Chunk) :
    List IngestionRecord :=
  chunks.enum.map fun ic =>
    { id := doc_id ++ "::v".toList ++ intRepr version ++ "::chunk-".toList ++ natRepr ic.1
      chunk_text := ic.2.chunk_text
      metadata :=
        { doc_id := doc_id
          doc_version := version
          is_active := is_active
          source := file_name
          pages := commaJoin (ic.2.pages.map natRepr)
          ingested_at := ingestion_time } }

/-- Embedding of `ingest_document`.  The file readers, the configured chunk
parameters and the ingestion timestamp (`datetime.utcnow().isoformat()`) are
explicit parameters.  `Except.error` is the propagated `ValueError`;
`Except.ok none` means the chunking loop never terminates. -/
def ingest_document (readPdf : List Char → List Page) (readTxt : List Char → List Char)
    (file_path doc_id : List Char) (version : Int) (is_active : Bool)
    (chunk_size overlap : Int) (ingestion_time : List Char) :
    Except (List Char) (Option (List IngestionRecord)) :=
  let file_name := basename file_path
  match extract_pages readPdf readTxt file_path with
  | Except.error e => Except.error e
  | Except.ok pages =>
    match chunk_pages pages chunk_size overlap with
    | none => Except.ok none
    | some chunks =>
      Except.ok (some (buildRecords doc_id version is_active file_name ingestion_time chunks))

/- Spec-side definitions, written from the specification's wording, to be
   compared with the source-side definitions above. -/

/-- Window start offsets `0, step, 2*step, ...` strictly below `L`, from the
spec's description of the sliding window (empty when `step = 0`). -/
def startsFrom (L step s : Nat) : List Nat :=
  if _h : 0 < step ∧ s < L then s :: startsFrom L step (s + step) else []
termination_by L - s
decreasing_by simp_wf; omega

/-- Window emission at offset `s`, from the spec's step 4: take the window
clamped at the stream end, strip it, and if the result is non-empty emit it
with the sorted set of distinct pages of the corresponding map slice. -/
def emitAt (ft : List Char) (cp : List Nat) (chunk_size s : Nat) : Option Chunk :=
  let e := min (s + chunk_size) ft.length
  let t := stripChars ((ft.drop s).take (e - s))
  if t = [] then none
  else some { chunk_text := t, pages := sortedDedup ((cp.drop s).take (e - s)) }

/-- Chunk sequence described by the spec: one candidate window per start
offset, emitted exactly when its stripped text is non-empty. -/
def specChunks (ft : List Char) (cp : List Nat) (chunk_size step : Nat) : List Chunk :=
  (startsFrom ft.length step 0).filterMap (emitAt ft cp chunk_size)

/-- Stream and page map described by the spec for pages after the first
contributing one: each contributes one separator space attributed to its own
(the following page's) number, then its text. -/
def sepJoinCont : List (Nat × List Char) → List Char × List Nat
  | [] => ([], [])
  | (p, t) :: rest =>
    let r := sepJoinCont rest
    (' ' :: (t ++ r.1), p :: (List.replicate t.length p ++ r.2))

/-- Stream and page map described by the spec (§4.3 step 1): normalized page
texts joined by single separator spaces, each separator attributed to the
following page's number. -/
def sepJoin : List (Nat × List Char) → List Char × List Nat
  | [] => ([], [])
  | (p, t) :: rest =>
    let r := sepJoinCont rest
    (t ++ r.1, List.replicate t.length p ++ r.2)

/-- Contributing pages: those whose normalized text is non-empty, paired with
that text. -/
def contribs (pages : List Page) : List (Nat × List Char) :=
  (pages.filter fun p => !(clean_text p.text).isEmpty).map
    fun p => (p.page, clean_text p.text)

/- Lemmas about `sortedDedup`. -/

lemma mem_sortedDedup {x : Nat} {l : List Nat} : x ∈ sortedDedup l ↔ x ∈ l := by
  unfold sortedDedup
  rw [List.mem_insertionSort]
  exact List.mem_dedup

lemma sortedDedup_sorted_lt (l : List Nat) : List.Sorted (· < ·) (sortedDedup l) := by
  have hs : List.Sorted (· ≤ ·) (sortedDedup l) := List.sorted_insertionSort _ _
  have hn : (sortedDedup l).Nodup :=
    (List.perm_insertionSort _ _).nodup_iff.mpr (List.nodup_dedup l)
  exact hs.lt_of_le hn

lemma sortedDedup_ne_nil {l : List Nat} (h : l ≠ []) : sortedDedup l ≠ [] := by
  obtain ⟨x, hx⟩ := List.exists_mem_of_ne_nil l h
  intro hc
  have : x ∈ sortedDedup l := mem_sortedDedup.mpr hx
  rw [hc] at this
  exact absurd this (List.not_mem_nil x)

/- Lemmas bridging the stream-building loop to the spec's join description. -/

lemma contribs_cons (p : Page) (ps : List Page) :
    contribs (p :: ps) =
      if clean_text p.text = [] then contribs ps
      else (p.page, clean_text p.text) :: contribs ps := by
  by_cases h : clean_text p.text = [] <;>
    simp [contribs, List.filter_cons, h]

lemma buildStreamAux_cont : ∀ (ps : List Page) (ft : List Char) (cp : List Nat),
    ft ≠ [] →
    buildStreamAux (ft, cp) ps =
      (ft ++ (sepJoinCont (contribs ps)).1, cp ++ (sepJoinCont (contribs ps)).2) := by
  intro ps
  induction ps with
  | nil => intro ft cp _; simp [buildStreamAux, contribs, sepJoinCont]
  | cons p ps ih =>
    intro ft cp hft
    rw [contribs_cons]
    by_cases h : clean_text p.text = []
    · rw [if_pos h]
      have hstep : buildStreamAux (ft, cp) (p :: ps) = buildStreamAux (ft, cp) ps := by
        simp [buildStreamAux, h]
      rw [hstep]
      exact ih ft cp hft
    · rw [if_neg h]
      have hstep : buildStreamAux (ft, cp) (p :: ps) =
          buildStreamAux (ft ++ ' ' :: clean_text p.text,
            cp ++ p.page :: List.replicate (clean_text p.text).length p.page) ps := by
        simp [buildStreamAux, h, hft]
      rw [hstep, ih _ _ (by simp)]
      simp [sepJoinCont, List.append_assoc]

lemma buildStream_eq_sepJoin (ps : List Page) :
    buildStream ps = sepJoin (contribs ps) := by
  unfold buildStream
  induction ps with
  | nil => simp [buildStreamAux, contribs, sepJoin]
  | cons p ps ih =>
    rw [contribs_cons]
    by_cases h : clean_text p.text = []
    · simp only [buildStreamAux, if_pos h, if_pos rfl]
      simpa [h] using ih
    · simp only [buildStreamAux, if_neg h, if_pos rfl]
      rw [buildStreamAux_cont _ _ _ (by simp [h])]
      simp [sepJoin]

lemma sepJoinCont_len (cs : List (Nat × List Char)) :
    (sepJoinCont cs).2.length = (sepJoinCont cs).1.length := by
  induction cs with
  | nil => simp [sepJoinCont]
  | cons pt rest ih => cases pt; simp [sepJoinCont, ih]

lemma sepJoin_len (cs : List (Nat × List Char)) :
    (sepJoin cs).2.length = (sepJoin cs).1.length := by
  cases cs with
  | nil => simp [sepJoin]
  | cons pt rest => cases pt; simp [sepJoin, sepJoinCont_len]

lemma buildStream_len (ps : List Page) :
    (buildStream ps).2.length = (buildStream ps).1.length := by
  rw [buildStream_eq_sepJoin]; exact sepJoin_len _

lemma mem_sepJoinCont {x : Nat} : ∀ {cs : List (Nat × List Char)},
    x ∈ (sepJoinCont cs).2 → ∃ pt ∈ cs, x = pt.1 := by
  intro cs
  induction cs with
  | nil => simp [sepJoinCont]
  | cons pt rest ih =>
    cases pt with
    | mk p t =>
      intro hx
      simp only [sepJoinCont, List.mem_cons, List.mem_append, List.mem_replicate] at hx
      rcases hx with h | ⟨_, h⟩ | h
      · exact ⟨(p, t), by simp, h⟩
      · exact ⟨(p, t), by simp, h⟩
      · obtain ⟨q, hq, hxq⟩ := ih h
        exact ⟨q, by simp [hq], hxq⟩

lemma mem_sepJoin {x : Nat} {cs : List (Nat × List Char)}
    (hx : x ∈ (sepJoin cs).2) : ∃ pt ∈ cs, x = pt.1 := by
  cases cs with
  | nil => simp [sepJoin] at hx
  | cons pt rest =>
    cases pt with
    | mk p t =>
      simp only [sepJoin, List.mem_append, List.mem_replicate] at hx
      rcases hx with ⟨_, h⟩ | h
      · exact ⟨(p, t), by simp, h⟩
      · obtain ⟨q, hq, hxq⟩ := mem_sepJoinCont h
        exact ⟨q, by simp [hq], hxq⟩

lemma mem_contribs {pt : Nat × List Char} {ps : List Page} (h : pt ∈ contribs ps) :
    ∃ p ∈ ps, pt.1 = p.page ∧ clean_text p.text ≠ [] := by
  simp only [contribs, List.mem_map, List.mem_filter] at h
  obtain ⟨p, ⟨hp, hne⟩, hpt⟩ := h
  exact ⟨p, hp, by simp [← hpt], by simpa using hne⟩

/-- Provenance of map entries: every entry of `char_to_page` is the page
number of some input page whose normalized text is non-empty. -/
lemma mem_buildStream_map {x : Nat} {ps : List Page}
    (hx : x ∈ (buildStream ps).2) :
    ∃ p ∈ ps, x = p.page ∧ clean_text p.text ≠ [] := by
  rw [buildStream_eq_sepJoin] at hx
  obtain ⟨pt, hpt, hxpt⟩ := mem_sepJoin hx
  obtain ⟨p, hp, hpage, hne⟩ := mem_contribs hpt
  exact ⟨p, hp, by rw [hxpt, hpage], hne⟩

lemma replicate_sorted (n p : Nat) : List.Sorted (· ≤ ·) (List.replicate n p) := by
  unfold List.Sorted
  rw [List.pairwise_replicate]
  exact Or.inr le_rfl

lemma sepJoinCont_sorted : ∀ {cs : List (Nat × List Char)},
    List.Sorted (· ≤ ·) (cs.map Prod.fst) → List.Sorted (· ≤ ·) (sepJoinCont cs).2 := by
  intro cs
  induction cs with
  | nil => intro _; simp [sepJoinCont]
  | cons pt rest ih =>
    cases pt with
    | mk p t =>
      intro hs
      rw [List.map_cons, List.sorted_cons] at hs
      obtain ⟨hhead, htail⟩ := hs
      show List.Sorted (· ≤ ·) (p :: (List.replicate t.length p ++ (sepJoinCont rest).2))
      rw [List.sorted_cons]
      constructor
      · intro b hb
        rcases List.mem_append.mp hb with h | h
        · exact le_of_eq (List.eq_of_mem_replicate h).symm
        · obtain ⟨q, hq, hbq⟩ := mem_sepJoinCont h
          rw [hbq]
          exact hhead q.1 (List.mem_map_of_mem Prod.fst hq)
      · unfold List.Sorted
        rw [List.pairwise_append]
        refine ⟨replicate_sorted _ _, ih htail, ?_⟩
        intro a ha b hb
        rw [List.eq_of_mem_replicate ha]
        obtain ⟨q, hq, hbq⟩ := mem_sepJoinCont hb
        rw [hbq]
        exact hhead q.1 (List.mem_map_of_mem Prod.fst hq)

lemma sepJoin_sorted {cs : List (Nat × List Char)}
    (hs : List.Sorted (· ≤ ·) (cs.map Prod.fst)) :
    List.Sorted (· ≤ ·) (sepJoin cs).2 := by
  cases cs with
  | nil => simp [sepJoin]
  | cons pt rest =>
    cases pt with
    | mk p t =>
      rw [List.map_cons, List.sorted_cons] at hs
      obtain ⟨hhead, htail⟩ := hs
      show List.Sorted (· ≤ ·) (List.replicate t.length p ++ (sepJoinCont rest).2)
      unfold List.Sorted
      rw [List.pairwise_append]
      refine ⟨replicate_sorted _ _, sepJoinCont_sorted htail, ?_⟩
      intro a ha b hb
      rw [List.eq_of_mem_replicate ha]
      obtain ⟨q, hq, hbq⟩ := mem_sepJoinCont hb
      rw [hbq]
      exact hhead q.1 (List.mem_map_of_mem Prod.fst hq)

lemma contribs_map_fst (ps : List Page) :
    (contribs ps).map Prod.fst =
      (ps.filter fun p => !(clean_text p.text).isEmpty).map Page.page := by
  simp [contribs, List.map_map]

/-- Monotonicity of the map: if the input pages are ordered by non-decreasing
page number, the built `char_to_page` is non-decreasing. -/
lemma buildStream_map_sorted {ps : List Page}
    (hs : List.Sorted (· ≤ ·) (ps.map Page.page)) :
    List.Sorted (· ≤ ·) (buildStream ps).2 := by
  rw [buildStream_eq_sepJoin]
  apply sepJoin_sorted
  rw [contribs_map_fst]
  have hsub : ((ps.filter fun p => !(clean_text p.text).isEmpty).map Page.page).Sublist
      (ps.map Page.page) := (List.filter_sublist ps).map Page.page
  exact List.Pairwise.sublist hsub hs

/- Lemmas about the chunking loop. -/

lemma pyIdx_natCast (len a : Nat) : pyIdx len (a : Int) = min a len := by
  simp [pyIdx]

lemma pySlice_nat (l : List α) (s e : Nat) (hs : s ≤ l.length) (he : e ≤ l.length) :
    pySlice l (s : Int) (e : Int) = (l.drop s).take (e - s) := by
  simp [pySlice, pyIdx_natCast, Nat.min_eq_left hs, Nat.min_eq_left he]

/-- Divergence of the while loop: when `overlap ≥ chunk_size` and the stream
is non-empty, no amount of fuel finishes the loop, because `start` never
increases past the stream length. -/
lemma chunkLoopFuel_none {ft : List Char} {cp : List Nat} {cs ov : Int}
    (hdeg : cs ≤ ov) (hne : ft ≠ []) :
    ∀ (fuel : Nat) (s : Int), s ≤ 0 → chunkLoopFuel ft cp cs ov fuel s = none := by
  have hpos : (0 : Int) < (ft.length : Int) := by
    have := List.length_pos.mpr hne
    exact_mod_cast this
  intro fuel
  induction fuel with
  | zero =>
    intro s hs
    have hlt : s < (ft.length : Int) := lt_of_le_of_lt hs hpos
    simp [chunkLoopFuel, hlt]
  | succ n ih =>
    intro s hs
    have hlt : s < (ft.length : Int) := lt_of_le_of_lt hs hpos
    simp only [chunkLoopFuel, if_pos hlt]
    rw [ih (s + (cs - ov)) (by omega)]

/-- Shape of every emitted chunk, for arbitrary parameters: its text is some
stripped window slice of the stream (non-empty, or it would not have been
emitted) and its page set is `sorted(set(...))` of the matching map slice. -/
lemma chunkLoopFuel_shape {ft : List Char} {cp : List Nat} {cs ov : Int} :
    ∀ (fuel : Nat) (s : Int) (chunks : List Chunk),
      chunkLoopFuel ft cp cs ov fuel s = some chunks →
      ∀ c ∈ chunks, c.chunk_text ≠ [] ∧ ∃ a b : Int,
        c.chunk_text = stripChars (pySlice ft a b) ∧
        c.pages = sortedDedup (pySlice cp a b) := by
  intro fuel
  induction fuel with
  | zero =>
    intro s chunks h c hc
    by_cases hlt : s < (ft.length : Int)
    · simp [chunkLoopFuel, hlt] at h
    · simp [chunkLoopFuel, hlt] at h
      subst h
      simp at hc
  | succ n ih =>
    intro s chunks h c hc
    by_cases hlt : s < (ft.length : Int)
    · simp only [chunkLoopFuel, if_pos hlt] at h
      cases hrec : chunkLoopFuel ft cp cs ov n (s + (cs - ov)) with
      | none => rw [hrec] at h; simp at h
      | some rest =>
        rw [hrec] at h
        simp only at h
        by_cases hemp : stripChars (pySlice ft s (min (s + cs) (ft.length : Int))) = []
        · rw [if_pos hemp] at h
          injection h with h
          subst h
          exact ih _ _ hrec c hc
        · rw [if_neg hemp] at h
          injection h with h
          subst h
          rcases List.mem_cons.mp hc with hceq | hcrest
          · subst hceq
            exact ⟨hemp, s, min (s + cs) (ft.length : Int), rfl, rfl⟩
          · exact ih _ _ hrec c hcrest
    · simp [chunkLoopFuel, hlt] at h
      subst h
      simp at hc

/-- On valid parameters the while loop computes exactly the spec's window
sequence from any start offset: one candidate window per offset
`s, s + step, ...`, emitted when its stripped text is non-empty. -/
lemma chunkLoopFuel_bridge {ft : List Char} {cp : List Nat} {cs ov : Int}
    (hov : 0 ≤ ov) (hlt : ov < cs) (hlen : cp.length = ft.length) :
    ∀ (fuel : Nat) (s : Nat), ft.length - s ≤ fuel →
      chunkLoopFuel ft cp cs ov fuel (s : Int) =
        some ((startsFrom ft.length (cs - ov).toNat s).filterMap
          (emitAt ft cp cs.toNat)) := by
  have hcs : 0 < cs := lt_of_le_of_lt hov hlt
  have hstep : 0 < (cs - ov).toNat := by omega
  intro fuel
  induction fuel with
  | zero =>
    intro s hs
    have hsL : ¬ s < ft.length := by omega
    have hsL2 : ¬ ((s : Int) < (ft.length : Int)) := by exact_mod_cast hsL
    rw [startsFrom, dif_neg (by omega)]
    simp [chunkLoopFuel, hsL2]
  | succ n ih =>
    intro s hs
    by_cases hsL : s < ft.length
    · have hsL2 : ((s : Int) < (ft.length : Int)) := by exact_mod_cast hsL
      have hadd : (s : Int) + (cs - ov) = ((s + (cs - ov).toNat : Nat) : Int) := by
        push_cast
        omega
      have hmin : min ((s : Int) + cs) ((ft.length : Int)) =
          ((min (s + cs.toNat) ft.length : Nat) : Int) := by
        push_cast
        omega
      simp only [chunkLoopFuel, if_pos hsL2]
      rw [hadd, ih (s + (cs - ov).toNat) (by omega)]
      rw [hmin, pySlice_nat ft s _ (le_of_lt hsL) (Nat.min_le_right _ _),
        pySlice_nat cp s _ (by rw [hlen]; exact le_of_lt hsL)
          (by rw [hlen]; exact Nat.min_le_right _ _)]
      have hrhs : startsFrom ft.length (cs - ov).toNat s
          = s :: startsFrom ft.length (cs - ov).toNat (s + (cs - ov).toNat) := by
        rw [startsFrom]
        exact dif_pos ⟨hstep, hsL⟩
      have hemitAt : emitAt ft cp cs.toNat s =
          (if stripChars ((ft.drop s).take (min (s + cs.toNat) ft.length - s)) = []
           then none
           else some
             { chunk_text :=
                 stripChars ((ft.drop s).take (min (s + cs.toNat) ft.length - s))
               pages :=
                 sortedDedup ((cp.drop s).take (min (s + cs.toNat) ft.length - s)) }) := rfl
      rw [hrhs, List.filterMap_cons, hemitAt]
      by_cases hemp :
          stripChars ((ft.drop s).take (min (s + cs.toNat) ft.length - s)) = []
      · simp [hemp]
      · simp [hemp]
    · have hsL2 : ¬ ((s : Int) < (ft.length : Int)) := by exact_mod_cast hsL
      rw [startsFrom, dif_neg (by omega)]
      simp [chunkLoopFuel, hsL2]

/-- Source-to-spec refinement of the chunker on valid parameters. -/
lemma chunk_pages_eq_specChunks (pgs : List Page) {cs ov : Int}
    (hov : 0 ≤ ov) (hlt : ov < cs) :
    chunk_pages pgs cs ov =
      some (specChunks (buildStream pgs).1 (buildStream pgs).2
        cs.toNat (cs - ov).toNat) := by
  unfold chunk_pages specChunks
  have h := chunkLoopFuel_bridge hov hlt (buildStream_len pgs)
    ((buildStream pgs).1.length + 1) 0 (by omega)
  simpa using h

lemma startsFrom_mem_range {L step : Nat} :
    ∀ (k s x : Nat), L - s ≤ k → x ∈ startsFrom L step s → s ≤ x ∧ x < L := by
  intro k
  induction k with
  | zero =>
    intro s x hs hx
    rw [startsFrom] at hx
    rcases Nat.lt_or_ge s L with h | h
    · omega
    · rw [dif_neg (by omega)] at hx
      exact absurd hx (List.not_mem_nil x)
  | succ n ih =>
    intro s x hs hx
    rw [startsFrom] at hx
    by_cases h : 0 < step ∧ s < L
    · rw [dif_pos h] at hx
      rcases List.mem_cons.mp hx with hxe | hxr
      · omega
      · have := ih (s + step) x (by omega) hxr
        omega
    · rw [dif_neg h] at hx
      exact absurd hx (List.not_mem_nil x)

lemma startsFrom_max {L step : Nat} (hstep : 0 < step) :
    ∀ (k s : Nat), L - s ≤ k → s < L →
      ∃ sl ∈ startsFrom L step s, L ≤ sl + step ∧
        ∀ x ∈ startsFrom L step s, x ≤ sl := by
  intro k
  induction k with
  | zero => intro s hs hsL; omega
  | succ n ih =>
    intro s hs hsL
    rw [startsFrom, dif_pos ⟨hstep, hsL⟩]
    by_cases h : s + step < L
    · obtain ⟨sl, hmem, hend, hmax⟩ := ih (s + step) (by omega) h
      refine ⟨sl, List.mem_cons_of_mem s hmem, hend, ?_⟩
      intro x hx
      rcases List.mem_cons.mp hx with hxe | hxr
      · have := startsFrom_mem_range (L - (s + step)) (s + step) sl le_rfl hmem
        omega
      · exact hmax x hxr
    · refine ⟨s, List.mem_cons_self s _, by omega, ?_⟩
      intro x hx
      rcases List.mem_cons.mp hx with hxe | hxr
      · omega
      · rw [startsFrom, dif_neg (by omega)] at hxr
        exact absurd hxr (List.not_mem_nil x)

/- Lemmas about decimal rendering and the version-safe id scheme. -/

lemma natReprCore_append : ∀ (fuel n : Nat) (acc : List Char),
    natReprCore fuel n acc = natReprCore fuel n [] ++ acc := by
  intro fuel
  induction fuel with
  | zero => intro n acc; simp [natReprCore]
  | succ m ih =>
    intro n acc
    by_cases h : n < 10
    · simp [natReprCore, h]
    · simp only [natReprCore, if_neg h]
      rw [ih (n / 10) (digitChar (n % 10) :: acc), ih (n / 10) [digitChar (n % 10)]]
      simp

/-- Numeric value of a digit character. -/
def digitVal (c : Char) : Nat := c.toNat - 48

/-- Value of a decimal digit string, most significant digit first. -/
def valOfDigits (l : List Char) : Nat :=
  l.foldl (fun a c => 10 * a + digitVal c) 0

lemma valOfDigits_append_single (xs : List Char) (c : Char) :
    valOfDigits (xs ++ [c]) = 10 * valOfDigits xs + digitVal c := by
  unfold valOfDigits
  rw [List.foldl_append]
  rfl

lemma valOfDigits_natReprCore : ∀ (fuel n : Nat), n < 10 ^ fuel →
    valOfDigits (natReprCore fuel n []) = n := by
  intro fuel
  induction fuel with
  | zero =>
    intro n h
    simp only [pow_zero, Nat.lt_one_iff] at h
    simp [natReprCore, valOfDigits, h]
  | succ m ih =>
    intro n h
    by_cases hn : n < 10
    · simp only [natReprCore, if_pos hn]
      have hd : ∀ d, d < 10 → digitVal (digitChar d) = d := by decide
      simp [valOfDigits, hd n hn]
    · simp only [natReprCore, if_neg hn]
      rw [natReprCore_append, valOfDigits_append_single]
      have hdiv : n / 10 < 10 ^ m := by
        rw [Nat.div_lt_iff_lt_mul (by norm_num)]
        calc n < 10 ^ (m + 1) := h
          _ = 10 ^ m * 10 := by ring
      rw [ih (n / 10) hdiv]
      have hd : ∀ d, d < 10 → digitVal (digitChar d) = d := by decide
      rw [hd (n % 10) (Nat.mod_lt _ (by norm_num))]
      omega

lemma natRepr_val (n : Nat) : valOfDigits (natRepr n) = n := by
  apply valOfDigits_natReprCore
  exact lt_of_lt_of_le (Nat.lt_pow_self (by norm_num) n)
    (Nat.pow_le_pow_right (by norm_num) (Nat.le_succ n))

lemma natRepr_inj {m n : Nat} (h : natRepr m = natRepr n) : m = n := by
  have hm := natRepr_val m
  rw [h, natRepr_val] at hm
  omega

lemma natReprCore_chars : ∀ (fuel n : Nat) (c : Char),
    c ∈ natReprCore fuel n [] → ∃ d, d < 10 ∧ c = digitChar d := by
  intro fuel
  induction fuel with
  | zero => intro n c hc; simp [natReprCore] at hc
  | succ m ih =>
    intro n c hc
    by_cases hn : n < 10
    · simp only [natReprCore, if_pos hn, List.mem_singleton] at hc
      exact ⟨n, hn, hc⟩
    · simp only [natReprCore, if_neg hn] at hc
      rw [natReprCore_append] at hc
      rcases List.mem_append.mp hc with h | h
      · exact ih _ _ h
      · rw [List.mem_singleton] at h
        exact ⟨n % 10, Nat.mod_lt _ (by norm_num), h⟩

lemma natRepr_chars {n : Nat} {c : Char} (hc : c ∈ natRepr n) :
    ∃ d, d < 10 ∧ c = digitChar d :=
  natReprCore_chars _ _ _ hc

lemma natRepr_no_colon {n : Nat} {c : Char} (hc : c ∈ natRepr n) : c ≠ ':' := by
  obtain ⟨d, hd, rfl⟩ := natRepr_chars hc
  exact (by decide : ∀ d, d < 10 → digitChar d ≠ ':') d hd

lemma natRepr_no_minus {n : Nat} {c : Char} (hc : c ∈ natRepr n) : c ≠ '-' := by
  obtain ⟨d, hd, rfl⟩ := natRepr_chars hc
  exact (by decide : ∀ d, d < 10 → digitChar d ≠ '-') d hd

lemma intRepr_no_colon {i : Int} {c : Char} (hc : c ∈ intRepr i) : c ≠ ':' := by
  unfold intRepr at hc
  by_cases h : i < 0
  · rw [if_pos h] at hc
    rcases List.mem_cons.mp hc with rfl | hm
    · decide
    · exact natRepr_no_colon hm
  · rw [if_neg h] at hc
    exact natRepr_no_colon hc

lemma intRepr_inj {i j : Int} (h : intRepr i = intRepr j) : i = j := by
  unfold intRepr at h
  by_cases hi : i < 0 <;> by_cases hj : j < 0
  · rw [if_pos hi, if_pos hj] at h
    injection h with hhead htail
    have := natRepr_inj htail
    omega
  · rw [if_pos hi, if_neg hj] at h
    have hm : '-' ∈ natRepr j.toNat := by rw [← h]; simp
    exact absurd rfl (natRepr_no_minus hm)
  · rw [if_neg hi, if_pos hj] at h
    have hm : '-' ∈ natRepr i.toNat := by rw [h]; simp
    exact absurd rfl (natRepr_no_minus hm)
  · rw [if_neg hi, if_neg hj] at h
    have := natRepr_inj h
    omega

/-- Two colon-free prefixes followed by a colon split an equal concatenation
identically. -/
lemma colon_split : ∀ (a b t u : List Char),
    (∀ c ∈ a, c ≠ ':') → (∀ c ∈ b, c ≠ ':') →
    a ++ ':' :: t = b ++ ':' :: u → a = b ∧ t = u := by
  intro a
  induction a with
  | nil =>
    intro b t u _ hb h
    cases b with
    | nil =>
      simp only [List.nil_append] at h
      injection h with _ h
      exact ⟨rfl, h⟩
    | cons y ys =>
      simp only [List.nil_append, List.cons_append] at h
      injection h with hy _
      exact absurd hy.symm (hb y (by simp))
  | cons x xs ih =>
    intro b t u ha hb h
    cases b with
    | nil =>
      simp only [List.nil_append, List.cons_append] at h
      injection h with hy _
      exact absurd hy (ha x (by simp))
    | cons y ys =>
      simp only [List.cons_append] at h
      injection h with hxy hrest
      obtain ⟨h1, h2⟩ := ih ys t u (fun c hc => ha c (by simp [hc]))
        (fun c hc => hb c (by simp [hc])) hrest
      exact ⟨by rw [hxy, h1], h2⟩

/-- Version injectivity of the generated ids: equal ids built from the same
`doc_id` force equal versions, whatever follows the `::chunk-` marker. -/
lemma id_version_inj {d : List Char} {v1 v2 : Int} {r1 r2 : List Char}
    (h : d ++ "::v".toList ++ intRepr v1 ++ "::chunk-".toList ++ r1
       = d ++ "::v".toList ++ intRepr v2 ++ "::chunk-".toList ++ r2) :
    v1 = v2 := by
  simp only [List.append_assoc] at h
  have h2 := List.append_cancel_left h
  have h3 := List.append_cancel_left h2
  have hsplit : intRepr v1 ++ ':' :: (":chunk-".toList ++ r1)
      = intRepr v2 ++ ':' :: (":chunk-".toList ++ r2) := h3
  obtain ⟨heq, _⟩ := colon_split (intRepr v1) (intRepr v2) _ _
    (fun c hc => intRepr_no_colon hc) (fun c hc => intRepr_no_colon hc) hsplit
  exact intRepr_inj heq

/- Lemmas about the record builder and the orchestrator. -/

lemma buildRecords_length (d : List Char) (v : Int) (a : Bool)
    (fn t : List Char) (chunks : List Chunk) :
    (buildRecords d v a fn t chunks).length = chunks.length := by
  simp [buildRecords]

lemma buildRecords_get {d : List Char} {v : Int} {a : Bool} {fn t : List Char}
    {chunks : List Chunk} {i : Nat} (hi : i < (buildRecords d v a fn t chunks).length)
    (hic : i < chunks.length) :
    (buildRecords d v a fn t chunks).get ⟨i, hi⟩ =
      { id := d ++ "::v".toList ++ intRepr v ++ "::chunk-".toList ++ natRepr i
        chunk_text := (chunks.get ⟨i, hic⟩).chunk_text
        metadata :=
          { doc_id := d
            doc_version := v
            is_active := a
            source := fn
            pages := commaJoin ((chunks.get ⟨i, hic⟩).pages.map natRepr)
            ingested_at := t } } := by
  simp [buildRecords, List.get_eq_getElem]

lemma buildRecords_id_mem {d : List Char} {v : Int} {a : Bool} {fn t : List Char}
    {chunks : List Chunk} {r : IngestionRecord}
    (hr : r ∈ buildRecords d v a fn t chunks) :
    ∃ i, i < chunks.length ∧
      r.id = d ++ "::v".toList ++ intRepr v ++ "::chunk-".toList ++ natRepr i := by
  simp only [buildRecords, List.mem_map] at hr
  obtain ⟨ic, hic, hr⟩ := hr
  rw [List.mem_enum_iff_getElem?] at hic
  obtain ⟨hlt, _⟩ := List.getElem?_eq_some.mp hic
  exact ⟨ic.1, hlt, by rw [← hr]⟩

lemma ingest_document_ok {readPdf : List Char → List Page}
    {readTxt : List Char → List Char} {path d : List Char} {v : Int} {a : Bool}
    {cs ov : Int} {t : List Char} {rs : List IngestionRecord}
    (h : ingest_document readPdf readTxt path d v a cs ov t = Except.ok (some rs)) :
    ∃ pgs chunks, extract_pages readPdf readTxt path = Except.ok pgs ∧
      chunk_pages pgs cs ov = some chunks ∧
      rs = buildRecords d v a (basename path) t chunks := by
  unfold ingest_document at h
  cases hE : extract_pages readPdf readTxt path with
  | error e => rw [hE] at h; simp at h
  | ok pgs =>
    rw [hE] at h
    dsimp only at h
    cases hC : chunk_pages pgs cs ov with
    | none => rw [hC] at h; simp at h
    | some chunks =>
      rw [hC] at h
      simp only [Except.ok.injEq, Option.some.injEq] at h
      exact ⟨pgs, chunks, rfl, hC, h.symm⟩

/- Claim theorems. -/

/-- C3: the spec demands that `overlap ≥ chunk_size` (or non-positive sizes)
be rejected or raise `InvalidChunkParameters`.  The code has no such check:
with `chunk_size ≤ overlap` and a non-empty stream the `while` loop never
terminates (no amount of fuel completes it), so the parameters are neither
rejected nor reported — the program hangs.  This theorem exhibits the
divergence and therefore the code bug. -/
theorem claim_C3_loop_diverges (pgs : List Page) (cs ov : Int) (fuel : Nat)
    (hdeg : cs ≤ ov) (hne : (buildStream pgs).1 ≠ []) :
    chunkLoopFuel (buildStream pgs).1 (buildStream pgs).2 cs ov fuel 0 = none ∧
    chunk_pages pgs cs ov = none := by
  constructor
  · exact chunkLoopFuel_none hdeg hne fuel 0 le_rfl
  · unfold chunk_pages
    exact chunkLoopFuel_none hdeg hne _ 0 le_rfl

/-- Witness for C3 at the concrete failing input
`pages = [{page 1, text "ab"}]`, `chunk_size = 1`, `overlap = 1`. -/
theorem claim_C3_loop_diverges_witness :
    ((1 : Int) ≤ 1 ∧ (buildStream [⟨1, "ab".toList⟩]).1 ≠ []) ∧
    (chunkLoopFuel (buildStream [⟨1, "ab".toList⟩]).1
        (buildStream [⟨1, "ab".toList⟩]).2 1 1 100 0 = none ∧
      chunk_pages [⟨1, "ab".toList⟩] 1 1 = none) :=
  ⟨⟨by decide, by decide⟩,
    claim_C3_loop_diverges [⟨1, "ab".toList⟩] 1 1 100 (by decide) (by decide)⟩

/-- C9: for any path whose lower-cased extension (as computed by
`os.path.splitext`) is none of `.pdf`, `.txt`, `.md`, both `extract_pages`
and the whole `ingest_document` call fail with the `Unsupported file type`
error, and no record batch (not even a partial one) is produced. -/
theorem claim_C9_unsupported (readPdf : List Char → List Page)
    (readTxt : List Char → List Char) (path d : List Char) (v : Int) (a : Bool)
    (cs ov : Int) (t : List Char)
    (h1 : (splitext_ext path).map Char.toLower ≠ ".pdf".toList)
    (h2 : (splitext_ext path).map Char.toLower ≠ ".txt".toList)
    (h3 : (splitext_ext path).map Char.toLower ≠ ".md".toList) :
    extract_pages readPdf readTxt path =
      Except.error ("Unsupported file type: ".toList ++
        (splitext_ext path).map Char.toLower) ∧
    ingest_document readPdf readTxt path d v a cs ov t =
      Except.error ("Unsupported file type: ".toList ++
        (splitext_ext path).map Char.toLower) := by
  have hE : extract_pages readPdf readTxt path =
      Except.error ("Unsupported file type: ".toList ++
        (splitext_ext path).map Char.toLower) := by
    unfold extract_pages
    rw [if_neg h1, if_neg (by tauto)]
  refine ⟨hE, ?_⟩
  unfold ingest_document
  rw [hE]

/-- Witness for C9 at the concrete path `"report.docx"`. -/
theorem claim_C9_unsupported_witness :
    ((splitext_ext "report.docx".toList).map Char.toLower ≠ ".pdf".toList ∧
      (splitext_ext "report.docx".toList).map Char.toLower ≠ ".txt".toList ∧
      (splitext_ext "report.docx".toList).map Char.toLower ≠ ".md".toList) ∧
    (extract_pages (fun _ => []) (fun _ => []) "report.docx".toList =
        Except.error ("Unsupported file type: ".toList ++
          (splitext_ext "report.docx".toList).map Char.toLower) ∧
      ingest_document (fun _ => []) (fun _ => []) "report.docx".toList
          "doc".toList 1 true 10 2 "2026-10-12".toList =
        Except.error ("Unsupported file type: ".toList ++
          (splitext_ext "report.docx".toList).map Char.toLower)) :=
  ⟨⟨by decide, by decide, by decide⟩,
    claim_C9_unsupported (fun _ => []) (fun _ => []) "report.docx".toList
      "doc".toList 1 true 10 2 "2026-10-12".toList
      (by decide) (by decide) (by decide)⟩

/-- C6: the stream builder inserts exactly one separating space between
consecutive contributing pages and attributes that space to the following
page.  Formally, the built stream and map equal the spec's join `sepJoin`
over the contributing pages; and `sepJoin` visibly places one `' '` between
consecutive entries while the matching map position carries `q`, the page
number of the *following* entry, not `p`. -/
theorem claim_C6_separator (pgs : List Page) (p q : Nat) (t u : List Char)
    (rest : List (Nat × List Char)) :
    buildStream pgs = sepJoin (contribs pgs) ∧
    (sepJoin ((p, t) :: (q, u) :: rest)).1 = t ++ ' ' :: (sepJoin ((q, u) :: rest)).1 ∧
    (sepJoin ((p, t) :: (q, u) :: rest)).2 =
      List.replicate t.length p ++ q :: (sepJoin ((q, u) :: rest)).2 :=
  ⟨buildStream_eq_sepJoin pgs, rfl, rfl⟩

/-- C7: for pages ordered by non-decreasing page number, after any prefix of
the construction the map has exactly the length of the stream and is
monotonically non-decreasing; pages normalizing to the empty string
contribute nothing (filtering them away leaves stream and map unchanged). -/
theorem claim_C7_invariants (pgs : List Page) (k : Nat)
    (hasc : List.Sorted (· ≤ ·) (pgs.map Page.page)) :
    ((buildStream (pgs.take k)).2.length = (buildStream (pgs.take k)).1.length ∧
      List.Sorted (· ≤ ·) (buildStream (pgs.take k)).2) ∧
    buildStream pgs = buildStream (pgs.filter fun p => !(clean_text p.text).isEmpty) := by
  refine ⟨⟨buildStream_len _, ?_⟩, ?_⟩
  · apply buildStream_map_sorted
    exact List.Pairwise.sublist ((List.take_sublist k pgs).map Page.page) hasc
  · rw [buildStream_eq_sepJoin, buildStream_eq_sepJoin]
    congr 1
    unfold contribs
    rw [List.filter_filter]
    simp

/-- Witness for C7 at pages `[{1, "x"}, {2, "  "}, {3, "y"}]` and prefix 2. -/
theorem claim_C7_invariants_witness :
    List.Sorted (· ≤ ·)
      (([⟨1, "x".toList⟩, ⟨2, "  ".toList⟩, ⟨3, "y".toList⟩] : List Page).map Page.page) ∧
    (((buildStream (([⟨1, "x".toList⟩, ⟨2, "  ".toList⟩, ⟨3, "y".toList⟩] : List Page).take 2)).2.length =
        (buildStream (([⟨1, "x".toList⟩, ⟨2, "  ".toList⟩, ⟨3, "y".toList⟩] : List Page).take 2)).1.length ∧
      List.Sorted (· ≤ ·)
        (buildStream (([⟨1, "x".toList⟩, ⟨2, "  ".toList⟩, ⟨3, "y".toList⟩] : List Page).take 2)).2) ∧
    buildStream [⟨1, "x".toList⟩, ⟨2, "  ".toList⟩, ⟨3, "y".toList⟩] =
      buildStream (([⟨1, "x".toList⟩, ⟨2, "  ".toList⟩, ⟨3, "y".toList⟩] : List Page).filter
        fun p => !(clean_text p.text).isEmpty)) :=
  ⟨by decide,
    claim_C7_invariants [⟨1, "x".toList⟩, ⟨2, "  ".toList⟩, ⟨3, "y".toList⟩] 2 (by decide)⟩

/-- C8: every chunk emitted by the chunker (for whatever parameters the run
terminated with) has non-empty text — empty-stripping windows are skipped —
a non-empty page list, and a strictly ascending (hence duplicate-free) page
list. -/
theorem claim_C8_chunk_invariants (pgs : List Page) (cs ov : Int)
    (chunks : List Chunk) (c : Chunk)
    (h : chunk_pages pgs cs ov = some chunks) (hc : c ∈ chunks) :
    c.chunk_text ≠ [] ∧ c.pages ≠ [] ∧ List.Sorted (· < ·) c.pages := by
  simp only [chunk_pages] at h
  obtain ⟨hne, a, b, htext, hpages⟩ := chunkLoopFuel_shape _ _ _ h c hc
  refine ⟨hne, ?_, ?_⟩
  · rw [hpages]
    apply sortedDedup_ne_nil
    intro hnil
    apply hne
    rw [htext]
    have hlen : (pySlice (buildStream pgs).2 a b).length =
        (pySlice (buildStream pgs).1 a b).length := by
      unfold pySlice
      simp [List.length_take, List.length_drop, buildStream_len]
    rw [hnil] at hlen
    have hft : pySlice (buildStream pgs).1 a b = [] :=
      List.length_eq_zero.mp (by simpa using hlen.symm)
    rw [hft]
    rfl
  · rw [hpages]
    exact sortedDedup_sorted_lt _

/-- Witness for C8 at pages `[{3, "ab"}, {4, "cd"}]`, `chunk_size = 3`,
`overlap = 0`, first emitted chunk. -/
theorem claim_C8_chunk_invariants_witness :
    (chunk_pages [⟨3, "ab".toList⟩, ⟨4, "cd".toList⟩] 3 0 =
        some [⟨"ab".toList, [3, 4]⟩, ⟨"cd".toList, [4]⟩] ∧
      (⟨"ab".toList, [3, 4]⟩ : Chunk) ∈
        [(⟨"ab".toList, [3, 4]⟩ : Chunk), ⟨"cd".toList, [4]⟩]) ∧
    ((⟨"ab".toList, [3, 4]⟩ : Chunk).chunk_text ≠ [] ∧
      (⟨"ab".toList, [3, 4]⟩ : Chunk).pages ≠ [] ∧
      List.Sorted (· < ·) (⟨"ab".toList, [3, 4]⟩ : Chunk).pages) :=
  ⟨⟨by decide, by decide⟩,
    claim_C8_chunk_invariants [⟨3, "ab".toList⟩, ⟨4, "cd".toList⟩] 3 0
      [⟨"ab".toList, [3, 4]⟩, ⟨"cd".toList, [4]⟩] ⟨"ab".toList, [3, 4]⟩
      (by decide) (by decide)⟩

/-- C10: provenance soundness — every page number cited by an emitted chunk
is the page number of an input page whose normalized text is non-empty.  The
chunker never invents a page number and never cites a page that contributed
no text. -/
theorem claim_C10_provenance (pgs : List Page) (cs ov : Int)
    (chunks : List Chunk) (c : Chunk) (p : Nat)
    (h : chunk_pages pgs cs ov = some chunks) (hc : c ∈ chunks) (hp : p ∈ c.pages) :
    ∃ pg ∈ pgs, pg.page = p ∧ clean_text pg.text ≠ [] := by
  simp only [chunk_pages] at h
  obtain ⟨_, a, b, _, hpages⟩ := chunkLoopFuel_shape _ _ _ h c hc
  rw [hpages] at hp
  have hp2 : p ∈ pySlice (buildStream pgs).2 a b := mem_sortedDedup.mp hp
  have hp3 : p ∈ (buildStream pgs).2 := by
    unfold pySlice at hp2
    exact List.drop_subset _ _ (List.take_subset _ _ hp2)
  obtain ⟨pg, hpg, hpage, hne2⟩ := mem_buildStream_map hp3
  exact ⟨pg, hpg, hpage.symm, hne2⟩

/-- Witness for C10 at pages `[{3, "ab"}, {4, "cd"}]`, `chunk_size = 3`,
`overlap = 0`, first chunk, cited page 4. -/
theorem claim_C10_provenance_witness :
    (chunk_pages [⟨3, "ab".toList⟩, ⟨4, "cd".toList⟩] 3 0 =
        some [⟨"ab".toList, [3, 4]⟩, ⟨"cd".toList, [4]⟩] ∧
      (⟨"ab".toList, [3, 4]⟩ : Chunk) ∈
        [(⟨"ab".toList, [3, 4]⟩ : Chunk), ⟨"cd".toList, [4]⟩] ∧
      (4 : Nat) ∈ (⟨"ab".toList, [3, 4]⟩ : Chunk).pages) ∧
    (∃ pg ∈ ([⟨3, "ab".toList⟩, ⟨4, "cd".toList⟩] : List Page),
      pg.page = 4 ∧ clean_text pg.text ≠ []) :=
  ⟨⟨by decide, by decide, by decide⟩,
    claim_C10_provenance [⟨3, "ab".toList⟩, ⟨4, "cd".toList⟩] 3 0
      [⟨"ab".toList, [3, 4]⟩, ⟨"cd".toList, [4]⟩] ⟨"ab".toList, [3, 4]⟩ 4
      (by decide) (by decide) (by decide)⟩

/-- C1: page-attribution correctness.  Every chunk emitted on valid
parameters comes from a window of the sliding sequence, its text is the
stripped window slice, and its `pages` set contains a page number exactly when the
corresponding slice of the character-to-page map contains it — that is,
exactly the pages contributing at least one character to the window, and no
others (so a window crossing a page boundary reports both pages, a window
inside one page reports just that page). -/
theorem claim_C1_page_attribution (pgs : List Page) (cs ov : Int)
    (chunks : List Chunk) (c : Chunk)
    (hov : 0 ≤ ov) (hlt : ov < cs)
    (h : chunk_pages pgs cs ov = some chunks) (hc : c ∈ chunks) :
    ∃ s ∈ startsFrom (buildStream pgs).1.length (cs - ov).toNat 0,
      c.chunk_text = stripChars (((buildStream pgs).1.drop s).take
        (min (s + cs.toNat) (buildStream pgs).1.length - s)) ∧
      ∀ p : Nat, p ∈ c.pages ↔
        p ∈ ((buildStream pgs).2.drop s).take
          (min (s + cs.toNat) (buildStream pgs).1.length - s) := by
  rw [chunk_pages_eq_specChunks pgs hov hlt] at h
  injection h with h
  subst h
  unfold specChunks at hc
  obtain ⟨s, hs, hemit⟩ := List.mem_filterMap.mp hc
  refine ⟨s, hs, ?_⟩
  simp only [emitAt] at hemit
  by_cases hemp : stripChars (((buildStream pgs).1.drop s).take
      (min (s + cs.toNat) (buildStream pgs).1.length - s)) = []
  · rw [if_pos hemp] at hemit
    exact absurd hemit (by simp)
  · rw [if_neg hemp] at hemit
    injection hemit with hemit
    subst hemit
    exact ⟨rfl, fun p => mem_sortedDedup⟩

/-- Witness for C1 at pages `[{3, "ab"}, {4, "cd"}]`, `chunk_size = 3`,
`overlap = 0`, first emitted chunk (its window crosses the page 3/4
boundary and it reports pages `[3, 4]`). -/
theorem claim_C1_page_attribution_witness :
    ((0 : Int) ≤ 0 ∧ (0 : Int) < 3 ∧
      chunk_pages [⟨3, "ab".toList⟩, ⟨4, "cd".toList⟩] 3 0 =
        some [⟨"ab".toList, [3, 4]⟩, ⟨"cd".toList, [4]⟩] ∧
      (⟨"ab".toList, [3, 4]⟩ : Chunk) ∈
        [(⟨"ab".toList, [3, 4]⟩ : Chunk), ⟨"cd".toList, [4]⟩]) ∧
    (∃ s ∈ startsFrom (buildStream [⟨3, "ab".toList⟩, ⟨4, "cd".toList⟩]).1.length
        ((3 : Int) - 0).toNat 0,
      (⟨"ab".toList, [3, 4]⟩ : Chunk).chunk_text =
        stripChars (((buildStream [⟨3, "ab".toList⟩, ⟨4, "cd".toList⟩]).1.drop s).take
          (min (s + (3 : Int).toNat)
            (buildStream [⟨3, "ab".toList⟩, ⟨4, "cd".toList⟩]).1.length - s)) ∧
      ∀ p : Nat, p ∈ (⟨"ab".toList, [3, 4]⟩ : Chunk).pages ↔
        p ∈ ((buildStream [⟨3, "ab".toList⟩, ⟨4, "cd".toList⟩]).2.drop s).take
          (min (s + (3 : Int).toNat)
            (buildStream [⟨3, "ab".toList⟩, ⟨4, "cd".toList⟩]).1.length - s)) :=
  ⟨⟨le_rfl, by decide, by decide, by decide⟩,
    claim_C1_page_attribution [⟨3, "ab".toList⟩, ⟨4, "cd".toList⟩] 3 0
      [⟨"ab".toList, [3, 4]⟩, ⟨"cd".toList, [4]⟩] ⟨"ab".toList, [3, 4]⟩
      le_rfl (by decide) (by decide) (by decide)⟩

/-- C4, counterexample to the claim as stated: with valid parameters
`chunk_size = 1 > overlap = 0` (step 1) and the 3-character stream `"a b"`
built from pages `[{1, "a"}, {2, "b"}]`, the window start offsets below the
length are `0, 1, 2`, yet the code emits only two chunks: the window at
offset 1 is the lone separator space, which strips to the empty string and
is skipped.  Hence the emitted chunks' start offsets are not "exactly
`0, step, 2*step, ...` for every start below L". -/
theorem claim_C4_counterexample :
    chunk_pages [⟨1, "a".toList⟩, ⟨2, "b".toList⟩] 1 0 =
      some [⟨"a".toList, [1]⟩, ⟨"b".toList, [2]⟩] ∧
    (buildStream [⟨1, "a".toList⟩, ⟨2, "b".toList⟩]).1 = "a b".toList ∧
    startsFrom (buildStream [⟨1, "a".toList⟩, ⟨2, "b".toList⟩]).1.length 1 0 =
      [0, 1, 2] := by
  refine ⟨by decide, by decide, ?_⟩
  have h1 : (buildStream [⟨1, "a".toList⟩, ⟨2, "b".toList⟩]).1.length = 3 := by decide
  rw [h1]
  have h4 : startsFrom 3 1 3 = [] := by
    rw [startsFrom]
    exact dif_neg (by omega)
  have h3 : startsFrom 3 1 2 = [2] := by
    rw [startsFrom, dif_pos (by omega : 0 < 1 ∧ 2 < 3), h4]
  have h2 : startsFrom 3 1 1 = [1, 2] := by
    rw [startsFrom, dif_pos (by omega : 0 < 1 ∧ 1 < 3)]
    rw [show (1 + 1 : Nat) = 2 by rfl, h3]
  rw [startsFrom, dif_pos (by omega : 0 < 1 ∧ 0 < 3)]
  rw [show (0 + 1 : Nat) = 1 by rfl, h2]

/-- C4, amended: on valid parameters the chunker terminates and emits, in
order, exactly the windows at start offsets `0, step, 2*step, ...` below the
stream length whose stripped text is non-empty (a window that strips to the
empty string — only possible when the window is a lone separator space — is
skipped); every window's end is `min(start + chunk_size, L)`, and the final
window (the maximal start offset) is clamped to end exactly at `L`, which is
not an error. -/
theorem claim_C4_amended (pgs : List Page) (cs ov : Int)
    (hov : 0 ≤ ov) (hlt : ov < cs) :
    chunk_pages pgs cs ov =
      some (specChunks (buildStream pgs).1 (buildStream pgs).2
        cs.toNat (cs - ov).toNat) ∧
    ((buildStream pgs).1 ≠ [] →
      ∃ sl ∈ startsFrom (buildStream pgs).1.length (cs - ov).toNat 0,
        min (sl + cs.toNat) (buildStream pgs).1.length =
          (buildStream pgs).1.length ∧
        ∀ x ∈ startsFrom (buildStream pgs).1.length (cs - ov).toNat 0, x ≤ sl) := by
  refine ⟨chunk_pages_eq_specChunks pgs hov hlt, ?_⟩
  intro hne
  have hL : 0 < (buildStream pgs).1.length := List.length_pos.mpr hne
  have hstep : 0 < (cs - ov).toNat := by omega
  obtain ⟨sl, hmem, hend, hmax⟩ :=
    startsFrom_max hstep (buildStream pgs).1.length 0 (by omega) hL
  refine ⟨sl, hmem, ?_, hmax⟩
  omega

/-- Witness for the amended C4 at pages `[{1, "Hello world."}, {2, "Goodbye now."}]`,
`chunk_size = 10`, `overlap = 2`. -/
theorem claim_C4_amended_witness :
    ((0 : Int) ≤ 2 ∧ (2 : Int) < 10) ∧
    (chunk_pages [⟨1, "Hello world.".toList⟩, ⟨2, "Goodbye now.".toList⟩] 10 2 =
      some (specChunks
        (buildStream [⟨1, "Hello world.".toList⟩, ⟨2, "Goodbye now.".toList⟩]).1
        (buildStream [⟨1, "Hello world.".toList⟩, ⟨2, "Goodbye now.".toList⟩]).2
        (10 : Int).toNat ((10 : Int) - 2).toNat) ∧
    ((buildStream [⟨1, "Hello world.".toList⟩, ⟨2, "Goodbye now.".toList⟩]).1 ≠ [] →
      ∃ sl ∈ startsFrom
          (buildStream [⟨1, "Hello world.".toList⟩, ⟨2, "Goodbye now.".toList⟩]).1.length
          ((10 : Int) - 2).toNat 0,
        min (sl + (10 : Int).toNat)
            (buildStream [⟨1, "Hello world.".toList⟩, ⟨2, "Goodbye now.".toList⟩]).1.length =
          (buildStream [⟨1, "Hello world.".toList⟩, ⟨2, "Goodbye now.".toList⟩]).1.length ∧
        ∀ x ∈ startsFrom
            (buildStream [⟨1, "Hello world.".toList⟩, ⟨2, "Goodbye now.".toList⟩]).1.length
            ((10 : Int) - 2).toNat 0, x ≤ sl)) :=
  ⟨⟨by decide, by decide⟩,
    claim_C4_amended [⟨1, "Hello world.".toList⟩, ⟨2, "Goodbye now.".toList⟩] 10 2
      (by decide) (by decide)⟩

/-- C2: distinct versions of the same `doc_id` produce disjoint id sets, and
each id is exactly `doc_id::v<version>::chunk-<index>` with the 0-based index
matching chunk order. -/
theorem claim_C2_version_disjoint (readPdf : List Char → List Page)
    (readTxt : List Char → List Char) (path d : List Char) (v1 v2 : Int)
    (a1 a2 : Bool) (cs ov : Int) (t1 t2 : List Char)
    (rs1 rs2 : List IngestionRecord) (r1 r2 : IngestionRecord) (i j : Nat)
    (hv : v1 ≠ v2)
    (h1 : ingest_document readPdf readTxt path d v1 a1 cs ov t1 = Except.ok (some rs1))
    (h2 : ingest_document readPdf readTxt path d v2 a2 cs ov t2 = Except.ok (some rs2))
    (hr1 : r1 ∈ rs1) (hr2 : r2 ∈ rs2)
    (hi : i < rs1.length) (hj : j < rs2.length) :
    r1.id ≠ r2.id ∧
    (rs1.get ⟨i, hi⟩).id =
      d ++ "::v".toList ++ intRepr v1 ++ "::chunk-".toList ++ natRepr i ∧
    (rs2.get ⟨j, hj⟩).id =
      d ++ "::v".toList ++ intRepr v2 ++ "::chunk-".toList ++ natRepr j := by
  obtain ⟨pgs1, chunks1, hE1, hC1, hrs1⟩ := ingest_document_ok h1
  obtain ⟨pgs2, chunks2, hE2, hC2, hrs2⟩ := ingest_document_ok h2
  subst hrs1
  subst hrs2
  refine ⟨?_, ?_, ?_⟩
  · obtain ⟨i1, _, hid1⟩ := buildRecords_id_mem hr1
    obtain ⟨i2, _, hid2⟩ := buildRecords_id_mem hr2
    rw [hid1, hid2]
    intro heq
    exact hv (id_version_inj heq)
  · have hic : i < chunks1.length := by
      rw [buildRecords_length] at hi
      exact hi
    rw [buildRecords_get hi hic]
  · have hjc : j < chunks2.length := by
      rw [buildRecords_length] at hj
      exact hj
    rw [buildRecords_get hj hjc]

/-- Witness for C2: ingesting `"n.txt"` (content `"ab"`) as versions 1 and 2. -/
theorem claim_C2_version_disjoint_witness :
    ((1 : Int) ≠ 2 ∧
      ingest_document (fun _ => []) (fun _ => "ab".toList) "n.txt".toList
          "doc".toList 1 true 5 0 "t1".toList =
        Except.ok (some [⟨"doc::v1::chunk-0".toList, "ab".toList,
          ⟨"doc".toList, 1, true, "n.txt".toList, "1".toList, "t1".toList⟩⟩]) ∧
      ingest_document (fun _ => []) (fun _ => "ab".toList) "n.txt".toList
          "doc".toList 2 true 5 0 "t2".toList =
        Except.ok (some [⟨"doc::v2::chunk-0".toList, "ab".toList,
          ⟨"doc".toList, 2, true, "n.txt".toList, "1".toList, "t2".toList⟩⟩])) ∧
    (⟨"doc::v1::chunk-0".toList, "ab".toList,
        ⟨"doc".toList, 1, true, "n.txt".toList, "1".toList, "t1".toList⟩⟩ :
      IngestionRecord).id ≠
    (⟨"doc::v2::chunk-0".toList, "ab".toList,
        ⟨"doc".toList, 2, true, "n.txt".toList, "1".toList, "t2".toList⟩⟩ :
      IngestionRecord).id := by
  refine ⟨⟨by decide, by rfl, by rfl⟩, ?_⟩
  exact (claim_C2_version_disjoint (fun _ => []) (fun _ => "ab".toList)
    "n.txt".toList "doc".toList 1 2 true true 5 0 "t1".toList "t2".toList
    [⟨"doc::v1::chunk-0".toList, "ab".toList,
      ⟨"doc".toList, 1, true, "n.txt".toList, "1".toList, "t1".toList⟩⟩]
    [⟨"doc::v2::chunk-0".toList, "ab".toList,
      ⟨"doc".toList, 2, true, "n.txt".toList, "1".toList, "t2".toList⟩⟩]
    _ _ 0 0 (by decide) (by rfl) (by rfl)
    (by decide) (by decide) (by decide) (by decide)).1

/-- C5: determinism of ingestion up to the timestamp.  Two runs over the same
file, `doc_id`, version and activation flag (the timestamp parameter being
the only difference) produce batches of equal length whose corresponding
records agree on id, chunk text and every metadata field except
`ingested_at`. -/
theorem claim_C5_idempotent (readPdf : List Char → List Page)
    (readTxt : List Char → List Char) (path d : List Char) (v : Int) (a : Bool)
    (cs ov : Int) (t1 t2 : List Char) (rs1 rs2 : List IngestionRecord) (i : Nat)
    (h1 : ingest_document readPdf readTxt path d v a cs ov t1 = Except.ok (some rs1))
    (h2 : ingest_document readPdf readTxt path d v a cs ov t2 = Except.ok (some rs2))
    (hi1 : i < rs1.length) (hi2 : i < rs2.length) :
    rs1.length = rs2.length ∧
    (rs1.get ⟨i, hi1⟩).id = (rs2.get ⟨i, hi2⟩).id ∧
    (rs1.get ⟨i, hi1⟩).chunk_text = (rs2.get ⟨i, hi2⟩).chunk_text ∧
    (rs1.get ⟨i, hi1⟩).metadata.doc_id = (rs2.get ⟨i, hi2⟩).metadata.doc_id ∧
    (rs1.get ⟨i, hi1⟩).metadata.doc_version = (rs2.get ⟨i, hi2⟩).metadata.doc_version ∧
    (rs1.get ⟨i, hi1⟩).metadata.is_active = (rs2.get ⟨i, hi2⟩).metadata.is_active ∧
    (rs1.get ⟨i, hi1⟩).metadata.source = (rs2.get ⟨i, hi2⟩).metadata.source ∧
    (rs1.get ⟨i, hi1⟩).metadata.pages = (rs2.get ⟨i, hi2⟩).metadata.pages := by
  obtain ⟨pgs1, chunks1, hE1, hC1, hrs1⟩ := ingest_document_ok h1
  obtain ⟨pgs2, chunks2, hE2, hC2, hrs2⟩ := ingest_document_ok h2
  have hpg : pgs1 = pgs2 := by
    have h := hE1.symm.trans hE2
    injection h
  subst hpg
  have hch : chunks1 = chunks2 := by
    have h := hC1.symm.trans hC2
    injection h
  subst hch
  subst hrs1
  subst hrs2
  have hic : i < chunks1.length := by
    rw [buildRecords_length] at hi1
    exact hi1
  rw [buildRecords_get hi1 hic, buildRecords_get hi2 hic]
  exact ⟨by rw [buildRecords_length, buildRecords_length], rfl, rfl, rfl, rfl, rfl,
    rfl, rfl⟩

/-- Witness for C5: two ingestions of `"n.txt"` (content `"ab"`) with
timestamps `"t1"` and `"t2"`. -/
theorem claim_C5_idempotent_witness :
    (ingest_document (fun _ => []) (fun _ => "ab".toList) "n.txt".toList
        "doc".toList 1 true 5 0 "t1".toList =
      Except.ok (some [⟨"doc::v1::chunk-0".toList, "ab".toList,
        ⟨"doc".toList, 1, true, "n.txt".toList, "1".toList, "t1".toList⟩⟩]) ∧
      ingest_document (fun _ => []) (fun _ => "ab".toList) "n.txt".toList
        "doc".toList 1 true 5 0 "t2".toList =
      Except.ok (some [⟨"doc::v1::chunk-0".toList, "ab".toList,
        ⟨"doc".toList, 1, true, "n.txt".toList, "1".toList, "t2".toList⟩⟩])) ∧
    ([(⟨"doc::v1::chunk-0".toList, "ab".toList,
        ⟨"doc".toList, 1, true, "n.txt".toList, "1".toList, "t1".toList⟩⟩ :
          IngestionRecord)].length =
      [(⟨"doc::v1::chunk-0".toList, "ab".toList,
        ⟨"doc".toList, 1, true, "n.txt".toList, "1".toList, "t2".toList⟩⟩ :
          IngestionRecord)].length ∧
      ([(⟨"doc::v1::chunk-0".toList, "ab".toList,
        ⟨"doc".toList, 1, true, "n.txt".toList, "1".toList, "t1".toList⟩⟩ :
          IngestionRecord)].get ⟨0, by decide⟩).id =
      ([(⟨"doc::v1::chunk-0".toList, "ab".toList,
        ⟨"doc".toList, 1, true, "n.txt".toList, "1".toList, "t2".toList⟩⟩ :
          IngestionRecord)].get ⟨0, by decide⟩).id ∧
      ([(⟨"doc::v1::chunk-0".toList, "ab".toList,
        ⟨"doc".toList, 1, true, "n.txt".toList, "1".toList, "t1".toList⟩⟩ :
          IngestionRecord)].get ⟨0, by decide⟩).chunk_text =
      ([(⟨"doc::v1::chunk-0".toList, "ab".toList,
        ⟨"doc".toList, 1, true, "n.txt".toList, "1".toList, "t2".toList⟩⟩ :
          IngestionRecord)].get ⟨0, by decide⟩).chunk_text ∧
      ([(⟨"doc::v1::chunk-0".toList, "ab".toList,
        ⟨"doc".toList, 1, true, "n.txt".toList, "1".toList, "t1".toList⟩⟩ :
          IngestionRecord)].get ⟨0, by decide⟩).metadata.doc_id =
      ([(⟨"doc::v1::chunk-0".toList, "ab".toList,
        ⟨"doc".toList, 1, true, "n.txt".toList, "1".toList, "t2".toList⟩⟩ :
          IngestionRecord)].get ⟨0, by decide⟩).metadata.doc_id ∧
      ([(⟨"doc::v1::chunk-0".toList, "ab".toList,
        ⟨"doc".toList, 1, true, "n.txt".toList, "1".toList, "t1".toList⟩⟩ :
          IngestionRecord)].get ⟨0, by decide⟩).metadata.doc_version =
      ([(⟨"doc::v1::chunk-0".toList, "ab".toList,
        ⟨"doc".toList, 1, true, "n.txt".toList, "1".toList, "t2".toList⟩⟩ :
          IngestionRecord)].get ⟨0, by decide⟩).metadata.doc_version ∧
      ([(⟨"doc::v1::chunk-0".toList, "ab".toList,
        ⟨"doc".toList, 1, true, "n.txt".toList, "1".toList, "t1".toList⟩⟩ :
          IngestionRecord)].get ⟨0, by decide⟩).metadata.is_active =
      ([(⟨"doc::v1::chunk-0".toList, "ab".toList,
        ⟨"doc".toList, 1, true, "n.txt".toList, "1".toList, "t2".toList⟩⟩ :
          IngestionRecord)].get ⟨0, by decide⟩).metadata.is_active ∧
      ([(⟨"doc::v1::chunk-0".toList, "ab".toList,
        ⟨"doc".toList, 1, true, "n.txt".toList, "1".toList, "t1".toList⟩⟩ :
          IngestionRecord)].get ⟨0, by decide⟩).metadata.source =
      ([(⟨"doc::v1::chunk-0".toList, "ab".toList,
        ⟨"doc".toList, 1, true, "n.txt".toList, "1".toList, "t2".toList⟩⟩ :
          IngestionRecord)].get ⟨0, by decide⟩).metadata.source ∧
      ([(⟨"doc::v1::chunk-0".toList, "ab".toList,
        ⟨"doc".toList, 1, true, "n.txt".toList, "1".toList, "t1".toList⟩⟩ :
          IngestionRecord)].get ⟨0, by decide⟩).metadata.pages =
      ([(⟨"doc::v1::chunk-0".toList, "ab".toList,
        ⟨"doc".toList, 1, true, "n.txt".toList, "1".toList, "t2".toList⟩⟩ :
          IngestionRecord)].get ⟨0, by decide⟩).metadata.pages) :=
  ⟨⟨by rfl, by rfl⟩,
    claim_C5_idempotent (fun _ => []) (fun _ => "ab".toList) "n.txt".toList
      "doc".toList 1 true 5 0 "t1".toList "t2".toList
      [⟨"doc::v1::chunk-0".toList, "ab".toList,
        ⟨"doc".toList, 1, true, "n.txt".toList, "1".toList, "t1".toList⟩⟩]
      [⟨"doc::v1::chunk-0".toList, "ab".toList,
        ⟨"doc".toList, 1, true, "n.txt".toList, "1".toList, "t2".toList⟩⟩]
      0 (by rfl) (by rfl) (by decide) (by decide)⟩
